import Mathlib

/-
Verification of the form-actions-nuxt build pipeline
(packages/form-actions-nuxt/src/module.ts).

The module scans server/actions, classifies each file by its export surface,
registers nitro/nuxt route handlers, extracts loader exports into generated
files under server/.loader, and keeps a published loader-name list, a loader
map and a declaration artifact up to date under incremental watch events.

Strings are modelled as lists of characters; the JS regular expression
/actions\/(.*?)\.ts/ is modelled by an explicit leftmost-start, shortest-capture
scan; JS objects and Maps keyed by strings are modelled by insertion-ordered
association lists.  magicast and esbuild are external collaborators of the
module (the spec treats the parse/rewrite/dead-code engine as a consumed
capability); they are modelled at the export-surface level.
-/

namespace FormActions

/-- Character strings, modelled as lists of characters. -/
abbrev Str := List Char

/-- The fixed generated-file banner GENERATED_TEXT (module.ts line 8). -/
def GENERATED_TEXT : Str :=
  "/** This file is auto-generated by the form-actions module. /!\\ Do not modify it manually ! */ \n".data

/-- The literal ".ts" terminating the capture of the action-route regex (module.ts line 35). -/
def tsTok : Str := ".ts".data

/-- The literal "actions/" opening the action-route regex (module.ts line 35). -/
def actionsTok : Str := "actions/".data

/-- The watch-scope literal "server/actions" (module.ts line 166). -/
def serverActionsTok : Str := "server/actions".data

/-- The export key "loader". -/
def loaderKey : Str := "loader".data

/-- The export key "default". -/
def defaultKey : Str := "default".data

/-- Modelled from the spec: NITRO_LOADER_PREFIX is imported from runtime/utils, which is not
among the provided sources; the spec fixes the loader route prefix to a constant and its
examples use "__loaders__". -/
def nitroLoaderPrefixConst : Str := "__loaders__".data

/-- Literal-prefix test: does the pattern match the text character by character from the
start.  (The same test as List.isPrefixOf, structured to recurse on the pattern first.) -/
def strPre : Str → Str → Bool
  | [], _ => true
  | a :: as, l =>
    match l with
    | [] => false
    | b :: bs => a == b && strPre as bs

/-- JS String.prototype.includes: does the pattern occur as a contiguous substring. -/
def hasSubstr (pat : Str) : Str → Bool
  | [] => pat.isEmpty
  | c :: rest => strPre pat (c :: rest) || hasSubstr pat rest

/-- JS regexp line terminators, which the dot of the regex does not match. -/
def isLineTerm (c : Char) : Bool :=
  c == '\n' || c == '\r' || c == '\u2028' || c == '\u2029'

/-- The lazy tail of the action-route regex at a fixed start position: the shortest run of
non-terminator characters followed by the literal ".ts"; the run is the capture group. -/
def lazyCapture : Str → Option Str
  | [] => none
  | c :: rest =>
    if strPre tsTok (c :: rest) then some []
    else if isLineTerm c then none
    else (lazyCapture rest).map (fun cap => c :: cap)

/-- JS regex exec semantics: scan start positions left to right; at the first position where
"actions/" matches and a lazy capture up to ".ts" succeeds, return the capture group. -/
def execActionRegex : Str → Option Str
  | [] => none
  | c :: rest =>
    if strPre actionsTok (c :: rest) then
      match lazyCapture (List.drop actionsTok.length (c :: rest)) with
      | some cap => some cap
      | none => execActionRegex rest
    else execActionRegex rest

/-- The thrown message of getActionRoute (module.ts line 37). -/
def routeErr (p : Str) : Str := "Could not parse action route from ".data ++ p

/-- getActionRoute (module.ts lines 34-39): run the regex; an absent capture and an empty
capture are both falsy in JS, so both throw. -/
def getActionRoute (actionPath : Str) : Except Str Str :=
  match execActionRegex actionPath with
  | some cap => if cap.isEmpty then Except.error (routeErr actionPath) else Except.ok cap
  | none => Except.error (routeErr actionPath)

/-- getLoaderRoute (module.ts line 41). -/
def getLoaderRoute (route : Str) : Str := '/' :: (nitroLoaderPrefixConst ++ '/' :: route)

/-- Lookup in an insertion-ordered association list (JS property read / Map.get). -/
def alistGet {α : Type} : List (Str × α) → Str → Option α
  | [], _ => none
  | (k, v) :: rest, key => if k = key then some v else alistGet rest key

/-- JS property assignment / Map.set: replace in place when the key exists, append
otherwise. -/
def alistSet {α : Type} : List (Str × α) → Str → α → List (Str × α)
  | [], key, v => [(key, v)]
  | (k, w) :: rest, key, v =>
    if k = key then (key, v) :: rest else (k, w) :: alistSet rest key v

/-- JS delete: remove the binding for a key. -/
def alistDel {α : Type} : List (Str × α) → Str → List (Str × α)
  | [], _ => []
  | (k, w) :: rest, key =>
    if k = key then alistDel rest key else (k, w) :: alistDel rest key

/-- The keys of an association list, in order. -/
def keysOf {α : Type} (m : List (Str × α)) : List Str := m.map Prod.fst

/-- Abstract code payloads carried by exports. -/
abbrev Code := Nat

/-- The export surface of a loaded source file, as magicast presents it: an insertion-ordered
map from export name to its code. -/
abbrev ExportMap := List (Str × Code)

/-- The magicast step of writeLoader (module.ts lines 24-25):
file.exports.default = file.exports.loader; delete file.exports.loader.
Both call sites guard on the loader export being present (lines 140 and 193). -/
def promoteLoader (m : ExportMap) : ExportMap :=
  match alistGet m loaderKey with
  | some c => alistDel (alistSet m defaultKey c) loaderKey
  | none => alistDel m loaderKey

/-- Modelled from the spec: the esbuild tree-shaking pass (module.ts line 27) removes only
dead non-exported code, none of which this export-level model represents; the exported
bindings pass through unchanged. -/
def treeShake (m : ExportMap) : ExportMap := m

/-- Text rendering of one export binding of the generated module. -/
def renderExport (kv : Str × Code) : Str :=
  "export ".data ++ kv.1 ++ " ".data ++ Nat.toDigits 10 kv.2 ++ "\n".data

/-- Text rendering of the rewritten module (generateCode, module.ts line 26). -/
def renderModule (m : ExportMap) : Str := m.foldr (fun kv acc => renderExport kv ++ acc) []

/-- The export bindings surviving writeLoader's rewrite. -/
def writeLoaderBindings (m : ExportMap) : ExportMap := treeShake (promoteLoader m)

/-- The full text written by writeLoader (module.ts lines 29-30): the banner written first,
then the tree-shaken rewritten module appended. -/
def writeLoaderContent (m : ExportMap) : Str :=
  GENERATED_TEXT ++ renderModule (writeLoaderBindings m)

/-- The generated file path loaderDirectory/actionRoute.ts (module.ts line 28). -/
def writeLoaderPath (loaderDirectory actionRoute : Str) : Str :=
  loaderDirectory ++ '/' :: (actionRoute ++ tsTok)

/-- HTTP methods appearing in the module. -/
inductive HttpMethod
  | get
  | post
deriving DecidableEq

/-- One route registration (a nitro handler or a nuxt server handler).  A registration
without an explicit method is the form-action push of module.ts lines 130-134. -/
structure Handler where
  method : Option HttpMethod := none
  route : Str
  handler : Str
  lazy : Bool := false
  formAction : Bool := false
deriving DecidableEq

/-- Modelled from the spec: a registration carrying no explicit method is a form-action
handler and is served as POST ("primary handler route = /<action-route> (POST)"); the
serving code lives in the runtime directory, which is not among the provided sources. -/
def registrationMethod (h : Handler) : HttpMethod := h.method.getD HttpMethod.post

/-- One loaderMap value (module.ts line 153). -/
structure LoaderEntry where
  name : Str
  filePath : Str
  url : Str
deriving DecidableEq

/-- The module's mutable state: the published loader names
(runtimeConfig.public.__serverLoaders__), the loaderMap, the nitro handler list, the nuxt
serverHandlers list fed by addServerHandler, the generated loader-directory contents, and
the loader-name union of the last rendered declaration artifact. -/
structure ModuleState where
  serverLoaders : List Str
  loaderMap : List (Str × LoaderEntry)
  nitroHandlers : List Handler
  serverHandlers : List Handler
  generatedFiles : List (Str × Str)
  declNames : List Str
deriving DecidableEq

/-- The state right after setup (module.ts lines 61-62): everything empty. -/
def initState : ModuleState := ⟨[], [], [], [], [], []⟩

/-- The loader-name union rendered into the declaration artifact (module.ts line 99),
computed from the current loaderMap values. -/
def loaderMapNames (st : ModuleState) : List Str := st.loaderMap.map (fun kv => kv.2.name)

/-- The keys of the loaderMap. -/
def loaderMapKeys (st : ModuleState) : List Str := keysOf st.loaderMap

/-- One file met by the full scan: its absolute path and its loaded export surface. -/
structure ScanFile where
  path : Str
  exports : ExportMap
deriving DecidableEq

/-- Processing of one walked file by the nitro:config hook (module.ts lines 124-156):
derive the route (a failure aborts the whole scan), push a form-action handler when a
default export is present, and when a loader export is present run writeLoader, push a
lazy GET handler, publish the name and record the loaderMap entry. -/
def processActionFile (loaderDirectory : Str) (st : ModuleState) (f : ScanFile) :
    Except Str ModuleState :=
  match getActionRoute f.path with
  | Except.error e => Except.error e
  | Except.ok actionRoute =>
    let st1 :=
      if (alistGet f.exports defaultKey).isSome then
        { st with nitroHandlers := st.nitroHandlers ++
            [{ route := '/' :: actionRoute, handler := f.path, formAction := true }] }
      else st
    if (alistGet f.exports loaderKey).isSome then
      let handler := writeLoaderPath loaderDirectory actionRoute
      let lroute := getLoaderRoute actionRoute
      Except.ok { st1 with
        generatedFiles := alistSet st1.generatedFiles handler (writeLoaderContent f.exports),
        nitroHandlers := st1.nitroHandlers ++
          [{ method := some HttpMethod.get, route := lroute, lazy := true,
             handler := handler }],
        serverLoaders := st1.serverLoaders ++ [actionRoute],
        loaderMap := alistSet st1.loaderMap actionRoute
          { name := actionRoute, filePath := handler, url := lroute } }
    else Except.ok st1

/-- The for-await loop of the nitro:config hook over the walked files. -/
def scanFold (loaderDirectory : Str) : ModuleState → List ScanFile → Except Str ModuleState
  | st, [] => Except.ok st
  | st, f :: rest =>
    match processActionFile loaderDirectory st f with
    | Except.error e => Except.error e
    | Except.ok st1 => scanFold loaderDirectory st1 rest

/-- The .gitignore path written when the loader directory is recreated (module.ts
line 119). -/
def gitignorePath (loaderDirectory : Str) : Str := loaderDirectory ++ "/.gitignore".data

/-- The nitro:config full scan (module.ts lines 113-159): delete and recreate the loader
directory with a fresh .gitignore, run every walked file through processActionFile, then
render the declaration artifact once (addLoaderTypes). -/
def fullScan (loaderDirectory : Str) (st : ModuleState) (files : List ScanFile) :
    Except Str ModuleState :=
  let st0 := { st with generatedFiles := [(gitignorePath loaderDirectory, "*".data)] }
  match scanFold loaderDirectory st0 files with
  | Except.error e => Except.error e
  | Except.ok st1 => Except.ok { st1 with declNames := loaderMapNames st1 }

/-- What the disk holds at a path: nothing, a file magicast fails to load, or a loadable
file with the given export surface. -/
inductive DiskEntry
  | absent
  | malformed
  | file (exports : ExportMap)
deriving DecidableEq

/-- Disk contents visible to the watch handler: path to entry. -/
abbrev Disk := List (Str × DiskEntry)

/-- The entry the disk holds at a path. -/
def diskEntry (disk : Disk) (p : Str) : DiskEntry := (alistGet disk p).getD DiskEntry.absent

/-- existsSync (module.ts line 177): a malformed file still exists on disk. -/
def existsSync (disk : Disk) (p : Str) : Bool :=
  match diskEntry disk p with
  | DiskEntry.absent => false
  | _ => true

/-- loadFile (magicast): resolves to the export surface, or rejects on a malformed file. -/
def loadFile (disk : Disk) (p : Str) : Except Str ExportMap :=
  match diskEntry disk p with
  | DiskEntry.file m => Except.ok m
  | _ => Except.error ("loadFile failed".data)

/-- One builder:watch event: the event kind string and the changed path. -/
structure WatchEvent where
  event : Str
  path : Str
deriving DecidableEq

/-- Outcome of the writeLoader call for one generated path: the esbuild transform and the
two filesystem writes can throw (module.ts lines 26-30).  ok: extraction and both writes
succeed; failBefore: generateCode, the transform or the banner write throws, leaving the
generated file untouched; failAfter: the append of the shaken code throws, leaving a file
holding only the banner. -/
inductive WriteOutcome
  | ok
  | failBefore
  | failAfter
deriving DecidableEq

/-- Per-generated-path write outcomes of the environment (esbuild and the filesystem);
paths not listed succeed. -/
abbrev WriteFs := List (Str × WriteOutcome)

/-- The outcome the environment assigns to a generated path. -/
def writeOutcome (fs : WriteFs) (p : Str) : WriteOutcome :=
  (alistGet fs p).getD WriteOutcome.ok

/-- removeLoaderFromServerLoader (module.ts lines 170-175): filter the published name list;
the loaderMap, the declaration artifact and the generated files are untouched. -/
def removeLoaderFromServerLoader (st : ModuleState) (actionRoute : Str) : ModuleState :=
  if actionRoute ∈ st.serverLoaders then
    { st with serverLoaders := st.serverLoaders.filter (fun r => decide (r ≠ actionRoute)) }
  else st

/-- The body of the builder:watch handler once the path is in scope (module.ts lines
167-207): derive the route (throwing on failure), on a missing file only remove the
published name, otherwise load the file, add a POST server handler when none with this
backing path exists, then either rewrite the generated loader (publishing the name and the
map entry when new, and re-rendering the declaration artifact) or remove the published
name.  updateTemplates is not awaited, so the artifact render sees the updated map.
A thrown error carries the state as mutated so far: exceptions do not roll back the
addServerHandler mutation or a partially written generated file, and writeLoader itself
can throw (extraction or IO, see WriteOutcome) after the handler was added. -/
def processScopedEvent (disk : Disk) (fs : WriteFs) (loaderDirectory : Str)
    (st : ModuleState) (ev : WatchEvent) : Except (Str × ModuleState) ModuleState :=
  match getActionRoute ev.path with
  | Except.error e => Except.error (e, st)
  | Except.ok actionRoute =>
    if existsSync disk ev.path then
      match loadFile disk ev.path with
      | Except.error e => Except.error (e, st)
      | Except.ok m =>
        let st1 :=
          if st.serverHandlers.any (fun h => decide (h.handler = ev.path)) then st
          else { st with serverHandlers := st.serverHandlers ++
              [{ method := some HttpMethod.post, route := '/' :: actionRoute,
                 lazy := true, handler := ev.path }] }
        if (alistGet m loaderKey).isSome then
          let handler := writeLoaderPath loaderDirectory actionRoute
          match writeOutcome fs handler with
          | WriteOutcome.failBefore =>
            Except.error ("writeLoader failed".data, st1)
          | WriteOutcome.failAfter =>
            Except.error ("writeLoader failed".data,
              { st1 with generatedFiles := alistSet st1.generatedFiles handler GENERATED_TEXT })
          | WriteOutcome.ok =>
            let st2 := { st1 with
              generatedFiles := alistSet st1.generatedFiles handler (writeLoaderContent m) }
            let st3 :=
              if actionRoute ∈ st2.serverLoaders then st2
              else { st2 with
                loaderMap := alistSet st2.loaderMap actionRoute
                  { name := actionRoute, filePath := handler,
                    url := getLoaderRoute actionRoute },
                serverLoaders := st2.serverLoaders ++ [actionRoute] }
            Except.ok { st3 with declNames := loaderMapNames st3 }
        else
          Except.ok (removeLoaderFromServerLoader st1 actionRoute)
    else
      Except.ok (removeLoaderFromServerLoader st actionRoute)

/-- The builder:watch handler before its try/catch (module.ts lines 164-166): the scope
test is a plain substring check against "server/actions". -/
def handleWatchEventCore (disk : Disk) (fs : WriteFs) (loaderDirectory : Str)
    (st : ModuleState) (ev : WatchEvent) : Except (Str × ModuleState) ModuleState :=
  if hasSubstr serverActionsTok ev.path then
    processScopedEvent disk fs loaderDirectory st ev
  else Except.ok st

/-- The builder:watch handler with its catch-all (module.ts lines 210-212): any error is
logged and the handler returns; mutations performed before the throw persist, since the
catch only logs. -/
def handleWatchEvent (disk : Disk) (fs : WriteFs) (loaderDirectory : Str)
    (st : ModuleState) (ev : WatchEvent) : ModuleState :=
  match handleWatchEventCore disk fs loaderDirectory st ev with
  | Except.ok st1 => st1
  | Except.error es => es.2

/-- A sequence of watch events, each seeing the disk contents and environment write
outcomes at its time. -/
def applyEvents (loaderDirectory : Str) :
    List (Disk × WriteFs × WatchEvent) → ModuleState → ModuleState
  | [], st => st
  | de :: rest, st =>
    applyEvents loaderDirectory rest (handleWatchEvent de.1 de.2.1 loaderDirectory st de.2.2)

/-- The RouteRegistry consistency direction that does hold: every published loader name has
an entry in the loaderMap. -/
def Consistent (st : ModuleState) : Prop :=
  ∀ r ∈ st.serverLoaders, r ∈ loaderMapKeys st

/-- A representative actions root for the route-derivation theorems. -/
def appActionsRoot : Str := "/app/server/actions/".data

/-- The loader directory of the example project. -/
def appLoaderDir : Str := "/app/server/.loader".data

def loginPath : Str := "/app/server/actions/login.ts".data

def profilePath : Str := "/app/server/actions/profile.ts".data

def searchPath : Str := "/app/server/actions/search.ts".data

/-- login.ts: a default export only. -/
def loginFile : ScanFile := { path := loginPath, exports := [(defaultKey, 1)] }

/-- profile.ts: a loader export only. -/
def profileFile : ScanFile := { path := profilePath, exports := [(loaderKey, 2)] }

/-- search.ts: both exports. -/
def searchFile : ScanFile := { path := searchPath, exports := [(defaultKey, 3), (loaderKey, 4)] }

/-- The end-to-end scenario state after the full scan of the three example files. -/
def scanState : ModuleState :=
  match fullScan appLoaderDir initState [loginFile, profileFile, searchFile] with
  | Except.ok s => s
  | Except.error _ => initState

/-- Disk contents after the loader export of profile.ts was removed in place. -/
def profileChangedDisk : Disk := [(profilePath, DiskEntry.file [(defaultKey, 5)])]

/-- The incremental change event on profile.ts. -/
def profileChangeEvent : WatchEvent := { event := "change".data, path := profilePath }

/-- The state after the incremental change event on the loader-stripped profile.ts; every
write succeeds in this scenario. -/
def afterRemoveState : ModuleState :=
  handleWatchEvent profileChangedDisk [] appLoaderDir scanState profileChangeEvent

def fooTsPath : Str := "/app/server/actions/foo.ts".data

def fooTsxPath : Str := "/app/server/actions/foo.tsx".data

def fooTs : ScanFile := { path := fooTsPath, exports := [(defaultKey, 1)] }

def fooTsx : ScanFile := { path := fooTsxPath, exports := [(defaultKey, 1)] }

/-- Scan of a directory holding foo.ts and foo.tsx, both with a default export; both derive
the route "foo". -/
def dupScanState : ModuleState :=
  match fullScan appLoaderDir initState [fooTs, fooTsx] with
  | Except.ok s => s
  | Except.error _ => initState

def notesRoute : Str := "notes".data

/-- A state with one registered loader named "notes". -/
def notesState : ModuleState :=
  { initState with
    serverLoaders := [notesRoute],
    loaderMap := [(notesRoute,
      { name := notesRoute, filePath := writeLoaderPath appLoaderDir notesRoute,
        url := getLoaderRoute notesRoute })],
    declNames := [notesRoute] }

def notesJsPath : Str := "/app/server/actions/notes.js".data

/-- A disk holding one malformed action file. -/
def badDisk : Disk := [("/app/server/actions/bad.ts".data, DiskEntry.malformed)]

/-- A disk holding foo.ts with a loader export. -/
def fooLoaderDisk : Disk := [(fooTsPath, DiskEntry.file [(loaderKey, 7)])]

/-- An environment in which extraction for the generated foo loader throws before any
write. -/
def fooFailFs : WriteFs :=
  [(writeLoaderPath appLoaderDir ("foo".data), WriteOutcome.failBefore)]

/-- A disk holding foo.ts with a default export. -/
def fooDisk : Disk := [(fooTsPath, DiskEntry.file [(defaultKey, 1)])]

/-! Association-list lemmas. -/

lemma alistGet_set_self {α : Type} (m : List (Str × α)) (k : Str) (v : α) :
    alistGet (alistSet m k v) k = some v := by
  induction m with
  | nil => simp [alistSet, alistGet]
  | cons kv rest ih =>
    obtain ⟨k1, v1⟩ := kv
    by_cases h : k1 = k
    · simp [alistSet, h, alistGet]
    · simp [alistSet, h, alistGet, ih]

lemma alistGet_del_ne {α : Type} (m : List (Str × α)) (k key : Str) (h : key ≠ k) :
    alistGet (alistDel m k) key = alistGet m key := by
  induction m with
  | nil => rfl
  | cons kv rest ih =>
    obtain ⟨k1, v1⟩ := kv
    by_cases h1 : k1 = k
    · have h2 : ¬ k1 = key := fun e => h (e ▸ h1)
      rw [alistDel, if_pos h1, ih, alistGet, if_neg h2]
    · by_cases h2 : k1 = key
      · rw [alistDel, if_neg h1, alistGet, if_pos h2, alistGet, if_pos h2]
      · rw [alistDel, if_neg h1, alistGet, if_neg h2, ih, alistGet, if_neg h2]

lemma keysOf_del_not_mem {α : Type} (m : List (Str × α)) (k : Str) :
    k ∉ keysOf (alistDel m k) := by
  induction m with
  | nil => simp [alistDel, keysOf]
  | cons kv rest ih =>
    obtain ⟨k1, v1⟩ := kv
    by_cases h1 : k1 = k
    · rw [alistDel, if_pos h1]
      exact ih
    · rw [alistDel, if_neg h1]
      simp only [keysOf, List.map_cons, List.mem_cons] at ih ⊢
      rintro (h | h)
      · exact h1 h.symm
      · exact ih h

lemma mem_keysOf_set {α : Type} (m : List (Str × α)) (k : Str) (v : α) (x : Str) :
    x ∈ keysOf (alistSet m k v) ↔ x ∈ keysOf m ∨ x = k := by
  induction m with
  | nil => simp [alistSet, keysOf]
  | cons kv rest ih =>
    obtain ⟨k1, v1⟩ := kv
    by_cases h1 : k1 = k
    · subst h1
      rw [alistSet, if_pos rfl]
      simp only [keysOf, List.map_cons, List.mem_cons]
      tauto
    · rw [alistSet, if_neg h1]
      simp only [keysOf, List.map_cons, List.mem_cons] at ih ⊢
      tauto

/-! Lemmas about the extraction pipeline. -/

lemma banner_prefix_content (m : ExportMap) :
    GENERATED_TEXT.isPrefixOf (writeLoaderContent m) = true := by
  rw [List.isPrefixOf_iff_prefix]
  exact List.prefix_append _ _

lemma loaderKey_not_in_bindings (m : ExportMap) :
    loaderKey ∉ keysOf (writeLoaderBindings m) := by
  unfold writeLoaderBindings treeShake promoteLoader
  cases h : alistGet m loaderKey with
  | some c => exact keysOf_del_not_mem _ _
  | none => exact keysOf_del_not_mem _ _

lemma alistGet_del_self {α : Type} (m : List (Str × α)) (k : Str) :
    alistGet (alistDel m k) k = none := by
  induction m with
  | nil => rfl
  | cons kv rest ih =>
    obtain ⟨k1, v1⟩ := kv
    by_cases h1 : k1 = k
    · rw [alistDel, if_pos h1]
      exact ih
    · rw [alistDel, if_neg h1, alistGet, if_neg h1, ih]

/-! Claim theorems. -/

/-- C1: In a full scan, a file whose only relevant export is a loader export contributes
exactly one route registration, a lazy GET at the fixed loader prefix over the derived
route; writeLoader stores the generated file at loaderDirectory/route.ts, its content
starts with the fixed generated-file banner, and no surviving binding is named
"loader". -/
theorem scan_loader_only_registers_get (ld : Str) (st : ModuleState) (f : ScanFile)
    (r : Str) (hr : getActionRoute f.path = Except.ok r)
    (hd : alistGet f.exports defaultKey = none)
    (hl : (alistGet f.exports loaderKey).isSome = true) :
    processActionFile ld st f = Except.ok { st with
      generatedFiles := alistSet st.generatedFiles (writeLoaderPath ld r)
        (writeLoaderContent f.exports),
      nitroHandlers := st.nitroHandlers ++
        [{ method := some HttpMethod.get, route := getLoaderRoute r, lazy := true,
           handler := writeLoaderPath ld r }],
      serverLoaders := st.serverLoaders ++ [r],
      loaderMap := alistSet st.loaderMap r
        { name := r, filePath := writeLoaderPath ld r, url := getLoaderRoute r } }
    ∧ GENERATED_TEXT.isPrefixOf (writeLoaderContent f.exports) = true
    ∧ loaderKey ∉ keysOf (writeLoaderBindings f.exports) := by
  refine ⟨?_, banner_prefix_content f.exports, loaderKey_not_in_bindings f.exports⟩
  unfold processActionFile
  rw [hr]
  simp [hd, hl]

/-- Witness for scan_loader_only_registers_get at profile.ts. -/
theorem scan_loader_only_registers_get_w :
    GENERATED_TEXT.isPrefixOf (writeLoaderContent profileFile.exports) = true :=
  (scan_loader_only_registers_get appLoaderDir initState profileFile ("profile".data)
    rfl rfl rfl).2.1

/-- C5: In a full scan, a file with only a primary (default) export contributes exactly
one registration, the form-action push at /<action-route>, which carries no explicit
method and is served as POST; no generated loader file is written for it and the loader
registries are untouched. -/
theorem scan_handler_only_registers_post (ld : Str) (st : ModuleState) (f : ScanFile)
    (r : Str) (hr : getActionRoute f.path = Except.ok r)
    (hd : (alistGet f.exports defaultKey).isSome = true)
    (hl : alistGet f.exports loaderKey = none) :
    processActionFile ld st f = Except.ok { st with
      nitroHandlers := st.nitroHandlers ++
        [{ route := '/' :: r, handler := f.path, formAction := true }] }
    ∧ registrationMethod { route := '/' :: r, handler := f.path, formAction := true } =
        HttpMethod.post := by
  refine ⟨?_, rfl⟩
  unfold processActionFile
  rw [hr]
  simp [hd, hl]

/-- Witness for scan_handler_only_registers_post at login.ts. -/
theorem scan_handler_only_registers_post_w :
    processActionFile appLoaderDir initState loginFile = Except.ok { initState with
      nitroHandlers := initState.nitroHandlers ++
        [{ route := '/' :: "login".data, handler := loginPath, formAction := true }] } :=
  (scan_handler_only_registers_post appLoaderDir initState loginFile ("login".data)
    rfl rfl rfl).1

/-- C8: Loader extraction is deterministic in its input: byte-identical source export
surfaces produce byte-identical generated file content. -/
theorem extraction_deterministic (m m2 : ExportMap) (h : m = m2) :
    writeLoaderContent m = writeLoaderContent m2 := by rw [h]

/-- Witness for extraction_deterministic at the profile example. -/
theorem extraction_deterministic_w :
    writeLoaderContent [(loaderKey, 2)] = writeLoaderContent [(loaderKey, 2)] :=
  extraction_deterministic [(loaderKey, 2)] [(loaderKey, 2)] rfl

/-- C9: writeLoader overwrites the default export with the loader export and deletes the
loader binding before code generation: the generated module's default export is the loader
code, the loader binding is gone, the original primary export (any code other than the
loader's) is no longer the default, and the written content is the banner plus the
rendering of exactly this rewritten surface. -/
theorem promoted_default_is_loader (m : ExportMap) (lc : Code)
    (hl : alistGet m loaderKey = some lc) :
    alistGet (promoteLoader m) defaultKey = some lc
    ∧ alistGet (promoteLoader m) loaderKey = none
    ∧ (∀ dc : Code, dc ≠ lc → alistGet (promoteLoader m) defaultKey ≠ some dc)
    ∧ writeLoaderContent m = GENERATED_TEXT ++ renderModule (treeShake (promoteLoader m)) := by
  have hne : defaultKey ≠ loaderKey := by decide
  have h1 : alistGet (promoteLoader m) defaultKey = some lc := by
    unfold promoteLoader
    rw [hl, alistGet_del_ne _ _ _ hne, alistGet_set_self]
  refine ⟨h1, ?_, ?_, rfl⟩
  · unfold promoteLoader
    rw [hl]
    exact alistGet_del_self _ _
  · intro dc hdc he
    rw [h1] at he
    exact hdc (Option.some.inj he).symm

/-- Witness for promoted_default_is_loader at the search example. -/
theorem promoted_default_is_loader_w :
    alistGet (promoteLoader [(defaultKey, 3), (loaderKey, 4)]) defaultKey = some 4 :=
  (promoted_default_is_loader [(defaultKey, 3), (loaderKey, 4)] 4 rfl).1

/-- C10: The incremental scope test is a plain substring check: an event is ignored (state
unchanged) exactly when its path lacks the substring "server/actions", and any path
containing it anywhere, inside or outside the configured action root, is processed through
processScopedEvent; route derivation there matches against the first "actions/" occurrence
of the whole path, as the third conjunct demonstrates on a path whose first occurrence is
not the configured action directory. -/
theorem watch_scope_is_substring_match (disk : Disk) (fs : WriteFs) (ld : Str)
    (st : ModuleState) (ev : WatchEvent) :
    (hasSubstr serverActionsTok ev.path = false → handleWatchEvent disk fs ld st ev = st)
    ∧ (hasSubstr serverActionsTok ev.path = true →
        handleWatchEventCore disk fs ld st ev = processScopedEvent disk fs ld st ev)
    ∧ getActionRoute ("/app/actions/first.ts/x/server/actions/real.ts".data) =
        Except.ok ("first".data) := by
  refine ⟨?_, ?_, rfl⟩
  · intro h
    simp [handleWatchEvent, handleWatchEventCore, h]
  · intro h
    simp [handleWatchEventCore, h]

/-- Witness for watch_scope_is_substring_match at an out-of-scope path. -/
theorem watch_scope_is_substring_match_w :
    handleWatchEvent [] [] appLoaderDir initState
      { event := "change".data, path := "/elsewhere/note.txt".data } = initState :=
  (watch_scope_is_substring_match [] [] appLoaderDir initState
    { event := "change".data, path := "/elsewhere/note.txt".data }).1 rfl

/-- C7 counterexample: a change event on server/actions/notes.js fails route derivation;
the handler jumps to the catch and only logs: no removal of the existing "notes" loader
entry is attempted and the state is completely unchanged, refuting the claimed
best-effort removal on derivation failure. -/
theorem route_error_no_removal :
    handleWatchEvent [] [] appLoaderDir notesState
      { event := "change".data, path := notesJsPath } = notesState
    ∧ notesRoute ∈ notesState.serverLoaders := ⟨rfl, by decide⟩

/-- C7 (amended): every error thrown while handling a watch event (route parse, load,
extraction, IO) is caught at the event-handler boundary; the handler logs and returns the
state as mutated up to the throw, so the watch process does not crash.  On
route-derivation failure specifically the throw happens before any mutation, so the state
is unchanged and no loader-entry removal is attempted; but an extraction or IO failure
inside writeLoader is raised after the handler registration, which then persists (third
conjunct: the POST server handler stays registered while no loader name is published). -/
theorem watch_errors_caught (disk : Disk) (fs : WriteFs) (ld : Str) (st : ModuleState)
    (ev : WatchEvent) :
    (∀ e stE, handleWatchEventCore disk fs ld st ev = Except.error (e, stE) →
        handleWatchEvent disk fs ld st ev = stE)
    ∧ (∀ e, getActionRoute ev.path = Except.error e →
        handleWatchEvent disk fs ld st ev = st)
    ∧ (∀ m r, hasSubstr serverActionsTok ev.path = true →
        getActionRoute ev.path = Except.ok r →
        diskEntry disk ev.path = DiskEntry.file m →
        (alistGet m loaderKey).isSome = true →
        st.serverHandlers.any (fun h => decide (h.handler = ev.path)) = false →
        writeOutcome fs (writeLoaderPath ld r) = WriteOutcome.failBefore →
        handleWatchEvent disk fs ld st ev = { st with
          serverHandlers := st.serverHandlers ++
            [{ method := some HttpMethod.post, route := '/' :: r, lazy := true,
               handler := ev.path }] }) := by
  refine ⟨?_, ?_, ?_⟩
  · intro e stE h
    unfold handleWatchEvent
    rw [h]
  · intro e he
    by_cases hsc : hasSubstr serverActionsTok ev.path = true
    · simp [handleWatchEvent, handleWatchEventCore, processScopedEvent, hsc, he]
    · simp [handleWatchEvent, handleWatchEventCore, hsc]
  · intro m r hsc hr hd hl hany hwo
    have hex : existsSync disk ev.path = true := by
      unfold existsSync
      rw [hd]
    have hld : loadFile disk ev.path = Except.ok m := by
      unfold loadFile
      rw [hd]
    simp [handleWatchEvent, handleWatchEventCore, processScopedEvent, hsc, hr, hex, hld,
      hany, hl, hwo]

/-- Witness for watch_errors_caught: extraction for the foo loader fails after the POST
handler was registered; the handler is caught and the registration persists. -/
theorem watch_errors_caught_w :
    handleWatchEvent fooLoaderDisk fooFailFs appLoaderDir initState
      { event := "change".data, path := fooTsPath } = { initState with
        serverHandlers := initState.serverHandlers ++
          [{ method := some HttpMethod.post, route := '/' :: "foo".data, lazy := true,
             handler := fooTsPath }] } :=
  (watch_errors_caught fooLoaderDisk fooFailFs appLoaderDir initState
    { event := "change".data, path := fooTsPath }).2.2 [(loaderKey, 7)] ("foo".data)
    (by decide) rfl rfl rfl rfl rfl

/-- C2 counterexample: after the example full scan, the change event on the
loader-stripped profile.ts removes "profile" from the published name list, but the
declaration artifact's loader-name union still contains "profile" (the loaderMap entry is
never deleted and the artifact is not re-rendered in the remove branch), while the stale
generated file remains on disk. -/
theorem watch_remove_keeps_decl_name :
    "profile".data ∉ afterRemoveState.serverLoaders
    ∧ "profile".data ∈ afterRemoveState.declNames
    ∧ (alistGet afterRemoveState.generatedFiles
        (writeLoaderPath appLoaderDir ("profile".data))).isSome = true := by decide

/-- C3 counterexample: the same remove leaves "profile" registered in the loaderMap while
absent from the published name list, violating the two-way consistency invariant. -/
theorem registry_inconsistent_after_remove :
    "profile".data ∈ loaderMapKeys afterRemoveState
    ∧ "profile".data ∉ afterRemoveState.serverLoaders := by decide

/-- C6 counterexample: a full scan over foo.ts and foo.tsx, both with a default export and
both deriving the route "foo", pushes two registrations with the identical (method, path)
pair: no explicit method, route /foo. -/
theorem duplicate_route_registrations :
    (dupScanState.nitroHandlers.filter
      (fun h => decide (h.method = none ∧ h.route = "/foo".data))).length = 2 := by decide

/-! Route-derivation lemmas for C4.  The appended ".ts" cannot create a new earlier match:
".ts" has no self-overlap with a proper suffix of the capture, since its second and third
characters differ from its first. -/

lemma strPre_ts_append (c : Char) (rest : Str)
    (h1 : strPre tsTok (c :: rest) = false) :
    strPre tsTok (c :: (rest ++ tsTok)) = false := by
  rcases rest with _ | ⟨r, _ | ⟨s, ss⟩⟩
  · have he : strPre tsTok (c :: ([] ++ tsTok)) = (('.' == c) && false) := rfl
    rw [he, Bool.and_false]
  · have he : strPre tsTok (c :: ([r] ++ tsTok)) =
        (('.' == c) && (('t' == r) && false)) := rfl
    rw [he, Bool.and_false, Bool.and_false]
  · have he : strPre tsTok (c :: ((r :: s :: ss) ++ tsTok)) =
        strPre tsTok (c :: r :: s :: ss) := rfl
    rw [he]
    exact h1

lemma lazyCapture_of_no_ts (rel : Str) (hts : hasSubstr tsTok rel = false)
    (hnl : ∀ c ∈ rel, isLineTerm c = false) :
    lazyCapture (rel ++ tsTok) = some rel := by
  induction rel with
  | nil => rfl
  | cons c rest ih =>
    have hparts := Bool.or_eq_false_iff.mp (by rw [hasSubstr] at hts; exact hts)
    have hpre := strPre_ts_append c rest hparts.1
    have hlc : isLineTerm c = false := hnl c (List.mem_cons_self c rest)
    have ih2 := ih hparts.2 (fun x hx => hnl x (List.mem_cons_of_mem c hx))
    rw [List.cons_append]
    simp [lazyCapture, hpre, hlc, ih2]

lemma execActionRegex_appRoot (tail cap : Str) (h : lazyCapture tail = some cap) :
    execActionRegex (appActionsRoot ++ tail) = some cap := by
  have e2 : execActionRegex (appActionsRoot ++ tail) =
      (match lazyCapture tail with
       | some cap => some cap
       | none =>
           execActionRegex ('c' :: 't' :: 'i' :: 'o' :: 'n' :: 's' :: '/' :: tail)) := rfl
  rw [e2, h]

lemma getActionRoute_app (rel : Str) (hne : rel ≠ [])
    (hts : hasSubstr tsTok rel = false) (hnl : ∀ c ∈ rel, isLineTerm c = false) :
    getActionRoute (appActionsRoot ++ rel ++ tsTok) = Except.ok rel := by
  have h1 := lazyCapture_of_no_ts rel hts hnl
  have h2 := execActionRegex_appRoot (rel ++ tsTok) rel h1
  unfold getActionRoute
  rw [List.append_assoc, h2]
  cases rel with
  | nil => exact absurd rfl hne
  | cons c cs => rfl

lemma hasSubstr_tail_false (pat : Str) (c : Char) (rest : Str)
    (h : hasSubstr pat (c :: rest) = false) : hasSubstr pat rest = false := by
  rw [hasSubstr] at h
  exact (Bool.or_eq_false_iff.mp h).2

lemma hasSubstr_drop_false (pat : Str) (n : Nat) (l : Str)
    (h : hasSubstr pat l = false) : hasSubstr pat (List.drop n l) = false := by
  induction n generalizing l with
  | zero => simpa using h
  | succ k ih =>
    cases l with
    | nil => simpa using h
    | cons c rest =>
      rw [List.drop_succ_cons]
      exact ih rest (hasSubstr_tail_false pat c rest h)

lemma lazyCapture_none_of_no_ts (l : Str) (h : hasSubstr tsTok l = false) :
    lazyCapture l = none := by
  induction l with
  | nil => rfl
  | cons c rest ih =>
    have h1 : strPre tsTok (c :: rest) = false := by
      rw [hasSubstr] at h
      exact (Bool.or_eq_false_iff.mp h).1
    have ih2 := ih (hasSubstr_tail_false tsTok c rest h)
    cases hlt : isLineTerm c with
    | true => simp [lazyCapture, h1, hlt]
    | false => simp [lazyCapture, h1, hlt, ih2]

lemma execActionRegex_none_of_no_ts (p : Str) (h : hasSubstr tsTok p = false) :
    execActionRegex p = none := by
  induction p with
  | nil => rfl
  | cons c rest ih =>
    have ih2 := ih (hasSubstr_tail_false tsTok c rest h)
    have hdrop := hasSubstr_drop_false tsTok actionsTok.length (c :: rest) h
    have hlc := lazyCapture_none_of_no_ts _ hdrop
    cases hp : strPre actionsTok (c :: rest) with
    | true => simp [execActionRegex, hp, hlc, ih2]
    | false => simp [execActionRegex, hp, ih2]

lemma getActionRoute_err_of_no_ts (p : Str) (h : hasSubstr tsTok p = false) :
    getActionRoute p = Except.error (routeErr p) := by
  unfold getActionRoute
  rw [execActionRegex_none_of_no_ts p h]

/-- C4 counterexample: a path of the claimed shape actions-root/a/b/name.ext with the
extension "js" is not parsed: getActionRoute throws the route-parse error instead of
returning a/b/name, because the regex demands the literal ".ts". -/
theorem route_other_ext_errors :
    getActionRoute ("/app/server/actions/a/b/name.js".data) =
      Except.error (routeErr ("/app/server/actions/a/b/name.js".data)) := rfl

/-- C4 (amended): over the representative action root /app/server/actions, route
derivation returns the relative path with the ".ts" extension stripped for every file
actions-root/rel.ts whose relative part is nonempty, free of the substring ".ts" and of
line terminators; and it throws the route-parse error for every path in which ".ts" never
occurs, in particular for every other extension. -/
theorem route_derivation_ts (rel : Str) (hne : rel ≠ [])
    (hts : hasSubstr tsTok rel = false) (hnl : ∀ c ∈ rel, isLineTerm c = false) :
    getActionRoute (appActionsRoot ++ rel ++ tsTok) = Except.ok rel
    ∧ ∀ p : Str, hasSubstr tsTok p = false →
        getActionRoute p = Except.error (routeErr p) :=
  ⟨getActionRoute_app rel hne hts hnl, getActionRoute_err_of_no_ts⟩

/-- Witness for route_derivation_ts at the nested relative path a/b/name. -/
theorem route_derivation_ts_w :
    getActionRoute (appActionsRoot ++ "a/b/name".data ++ tsTok) =
      Except.ok ("a/b/name".data) :=
  (route_derivation_ts ("a/b/name".data) (by decide) (by decide) (by decide)).1

/-! Lemmas on the remove operation and the watch handler, for C2, C3 and C6. -/

lemma not_mem_filter_ne_self (l : List Str) (r : Str) :
    r ∉ l.filter (fun x => decide (x ≠ r)) := by
  intro h
  have := List.of_mem_filter h
  simp at this

lemma filter_ne_of_not_mem (l : List Str) (r : Str) (h : r ∉ l) :
    l.filter (fun x => decide (x ≠ r)) = l := by
  apply List.filter_eq_self.mpr
  intro a ha
  simp
  intro e
  exact h (e ▸ ha)

lemma removeLoader_eq (st : ModuleState) (r : Str) :
    (removeLoaderFromServerLoader st r).serverLoaders =
      st.serverLoaders.filter (fun x => decide (x ≠ r))
    ∧ (removeLoaderFromServerLoader st r).loaderMap = st.loaderMap
    ∧ (removeLoaderFromServerLoader st r).declNames = st.declNames
    ∧ (removeLoaderFromServerLoader st r).generatedFiles = st.generatedFiles
    ∧ (removeLoaderFromServerLoader st r).serverHandlers = st.serverHandlers := by
  unfold removeLoaderFromServerLoader
  by_cases hmem : r ∈ st.serverLoaders
  · simp [hmem]
  · rw [if_neg hmem, filter_ne_of_not_mem st.serverLoaders r hmem]
    exact ⟨rfl, rfl, rfl, rfl, rfl⟩

lemma handleWatchEvent_no_loader (disk : Disk) (fs : WriteFs) (ld : Str)
    (st : ModuleState) (ev : WatchEvent) (m : ExportMap) (r : Str)
    (hs : hasSubstr serverActionsTok ev.path = true)
    (hr : getActionRoute ev.path = Except.ok r)
    (hd : diskEntry disk ev.path = DiskEntry.file m)
    (hl : alistGet m loaderKey = none) :
    handleWatchEvent disk fs ld st ev =
      removeLoaderFromServerLoader
        (if st.serverHandlers.any (fun h => decide (h.handler = ev.path)) then st
         else { st with serverHandlers := st.serverHandlers ++
             [{ method := some HttpMethod.post, route := '/' :: r, lazy := true,
                handler := ev.path }] }) r := by
  have hex : existsSync disk ev.path = true := by
    unfold existsSync
    rw [hd]
  have hld : loadFile disk ev.path = Except.ok m := by
    unfold loadFile
    rw [hd]
  simp [handleWatchEvent, handleWatchEventCore, processScopedEvent, hs, hr, hex, hld, hl]

/-- C2 (amended): an incremental change event on a file in scope that still loads but no
longer has a loader export removes the route from the published name list (and only from
it): the loaderMap entry survives, the declaration artifact is not re-rendered (its
loader-name union still contains the name), and the previously generated loader file stays
on disk untouched. -/
theorem watch_loader_removed_state (disk : Disk) (fs : WriteFs) (ld : Str)
    (st : ModuleState) (ev : WatchEvent) (m : ExportMap) (r : Str)
    (hs : hasSubstr serverActionsTok ev.path = true)
    (hr : getActionRoute ev.path = Except.ok r)
    (hd : diskEntry disk ev.path = DiskEntry.file m)
    (hl : alistGet m loaderKey = none) :
    r ∉ (handleWatchEvent disk fs ld st ev).serverLoaders
    ∧ (handleWatchEvent disk fs ld st ev).serverLoaders =
        st.serverLoaders.filter (fun x => decide (x ≠ r))
    ∧ (handleWatchEvent disk fs ld st ev).loaderMap = st.loaderMap
    ∧ (handleWatchEvent disk fs ld st ev).declNames = st.declNames
    ∧ (handleWatchEvent disk fs ld st ev).generatedFiles = st.generatedFiles := by
  rw [handleWatchEvent_no_loader disk fs ld st ev m r hs hr hd hl]
  by_cases hany : st.serverHandlers.any (fun h => decide (h.handler = ev.path)) = true
  · rw [if_pos hany]
    refine ⟨?_, (removeLoader_eq st r).1, (removeLoader_eq st r).2.1,
      (removeLoader_eq st r).2.2.1, (removeLoader_eq st r).2.2.2.1⟩
    rw [(removeLoader_eq st r).1]
    exact not_mem_filter_ne_self _ _
  · rw [if_neg hany]
    refine ⟨?_, (removeLoader_eq _ r).1, (removeLoader_eq _ r).2.1,
      (removeLoader_eq _ r).2.2.1, (removeLoader_eq _ r).2.2.2.1⟩
    rw [(removeLoader_eq _ r).1]
    exact not_mem_filter_ne_self _ _

/-- Witness for watch_loader_removed_state at the profile scenario. -/
theorem watch_loader_removed_state_w :
    (handleWatchEvent profileChangedDisk [] appLoaderDir scanState
      profileChangeEvent).declNames = scanState.declNames :=
  (watch_loader_removed_state profileChangedDisk [] appLoaderDir scanState
    profileChangeEvent [(defaultKey, 5)] ("profile".data) (by decide) rfl rfl rfl).2.2.2.1

/-- C6 (amended): the incremental guard checks only the backing file path against the nuxt
serverHandlers list: on a processed event whose file loads, a new lazy POST handler at
/<route> is appended exactly when no server handler with this backing path exists; the
scan's nitro registrations are never consulted and no (method, path) uniqueness holds
pipeline-wide (see the counterexample). -/
theorem watch_handler_guard (disk : Disk) (fs : WriteFs) (ld : Str) (st : ModuleState)
    (ev : WatchEvent) (m : ExportMap) (r : Str)
    (hs : hasSubstr serverActionsTok ev.path = true)
    (hr : getActionRoute ev.path = Except.ok r)
    (hd : diskEntry disk ev.path = DiskEntry.file m) :
    (st.serverHandlers.any (fun h => decide (h.handler = ev.path)) = true →
      (handleWatchEvent disk fs ld st ev).serverHandlers = st.serverHandlers)
    ∧ (st.serverHandlers.any (fun h => decide (h.handler = ev.path)) = false →
      (handleWatchEvent disk fs ld st ev).serverHandlers = st.serverHandlers ++
        [{ method := some HttpMethod.post, route := '/' :: r, lazy := true,
           handler := ev.path }]) := by
  have hex : existsSync disk ev.path = true := by
    unfold existsSync
    rw [hd]
  have hld : loadFile disk ev.path = Except.ok m := by
    unfold loadFile
    rw [hd]
  constructor <;> intro hany <;>
    by_cases hl : (alistGet m loaderKey).isSome = true <;>
    by_cases hmem : r ∈ st.serverLoaders <;>
    cases hwo : writeOutcome fs (writeLoaderPath ld r) <;>
    simp [handleWatchEvent, handleWatchEventCore, processScopedEvent,
      removeLoaderFromServerLoader, hs, hr, hex, hld, hany, hl, hmem, hwo]

/-- Witness for watch_handler_guard: an event on foo.ts with no existing server handler. -/
theorem watch_handler_guard_w :
    (handleWatchEvent fooDisk [] appLoaderDir initState
      { event := "add".data, path := fooTsPath }).serverHandlers =
      initState.serverHandlers ++
        [{ method := some HttpMethod.post, route := '/' :: "foo".data, lazy := true,
           handler := fooTsPath }] :=
  (watch_handler_guard fooDisk [] appLoaderDir initState
    { event := "add".data, path := fooTsPath } [(defaultKey, 1)] ("foo".data)
    (by decide) rfl rfl).2 rfl

/-! Consistency invariant for C3. -/

lemma consistent_init : Consistent initState := by
  intro r hr
  simp [initState] at hr

lemma consistent_of_fields (st st2 : ModuleState)
    (h1 : st2.serverLoaders = st.serverLoaders) (h2 : st2.loaderMap = st.loaderMap)
    (hc : Consistent st) : Consistent st2 := by
  intro x hx
  rw [h1] at hx
  unfold loaderMapKeys
  rw [h2]
  exact hc x hx

lemma consistent_push (st : ModuleState) (r : Str) (e : LoaderEntry) (st2 : ModuleState)
    (h1 : st2.serverLoaders = st.serverLoaders ++ [r])
    (h2 : st2.loaderMap = alistSet st.loaderMap r e)
    (hc : Consistent st) : Consistent st2 := by
  intro x hx
  rw [h1] at hx
  unfold loaderMapKeys
  rw [h2]
  rcases List.mem_append.mp hx with hh | hh
  · exact (mem_keysOf_set _ _ _ _).mpr (Or.inl (hc x hh))
  · exact (mem_keysOf_set _ _ _ _).mpr (Or.inr (by simpa using hh))

lemma consistent_removeLoader (st : ModuleState) (r : Str) (hc : Consistent st) :
    Consistent (removeLoaderFromServerLoader st r) := by
  intro x hx
  rw [(removeLoader_eq st r).1] at hx
  unfold loaderMapKeys
  rw [(removeLoader_eq st r).2.1]
  exact hc x (List.mem_of_mem_filter hx)

lemma consistent_processActionFile (ld : Str) (st : ModuleState) (f : ScanFile)
    (st2 : ModuleState) (hc : Consistent st)
    (h : processActionFile ld st f = Except.ok st2) : Consistent st2 := by
  unfold processActionFile at h
  cases hr : getActionRoute f.path with
  | error e => rw [hr] at h; simp at h
  | ok r =>
    rw [hr] at h
    dsimp only at h
    by_cases hd : (alistGet f.exports defaultKey).isSome = true
    · rw [if_pos hd] at h
      by_cases hl : (alistGet f.exports loaderKey).isSome = true
      · rw [if_pos hl] at h
        have he := Except.ok.inj h
        subst he
        exact consistent_push st r _ _ rfl rfl hc
      · rw [if_neg hl] at h
        have he := Except.ok.inj h
        subst he
        exact consistent_of_fields st _ rfl rfl hc
    · rw [if_neg hd] at h
      by_cases hl : (alistGet f.exports loaderKey).isSome = true
      · rw [if_pos hl] at h
        have he := Except.ok.inj h
        subst he
        exact consistent_push st r _ _ rfl rfl hc
      · rw [if_neg hl] at h
        have he := Except.ok.inj h
        subst he
        exact hc

lemma consistent_scanFold (ld : Str) (files : List ScanFile) :
    ∀ st st2, Consistent st → scanFold ld st files = Except.ok st2 → Consistent st2 := by
  induction files with
  | nil =>
    intro st st2 hc h
    simp only [scanFold] at h
    have he := Except.ok.inj h
    subst he
    exact hc
  | cons f rest ih =>
    intro st st2 hc h
    simp only [scanFold] at h
    cases hstep : processActionFile ld st f with
    | error e => rw [hstep] at h; simp at h
    | ok st1 =>
      rw [hstep] at h
      dsimp only at h
      exact ih st1 st2 (consistent_processActionFile ld st f st1 hc hstep) h

lemma consistent_fullScan (ld : Str) (st : ModuleState) (files : List ScanFile)
    (st2 : ModuleState) (hc : Consistent st)
    (h : fullScan ld st files = Except.ok st2) : Consistent st2 := by
  unfold fullScan at h
  dsimp only at h
  cases hs : scanFold ld { st with generatedFiles := [(gitignorePath ld, "*".data)] } files with
  | error e => rw [hs] at h; simp at h
  | ok st1 =>
    rw [hs] at h
    dsimp only at h
    have he := Except.ok.inj h
    subst he
    have hc0 : Consistent { st with generatedFiles := [(gitignorePath ld, "*".data)] } :=
      consistent_of_fields st _ rfl rfl hc
    have hc1 := consistent_scanFold ld files _ st1 hc0 hs
    exact consistent_of_fields st1 _ rfl rfl hc1

lemma consistent_handleWatchEvent (disk : Disk) (fs : WriteFs) (ld : Str)
    (st : ModuleState) (ev : WatchEvent) (hc : Consistent st) :
    Consistent (handleWatchEvent disk fs ld st ev) := by
  unfold handleWatchEvent handleWatchEventCore processScopedEvent
  by_cases hsc : hasSubstr serverActionsTok ev.path = true
  case neg =>
    rw [if_neg hsc]
    exact hc
  case pos =>
  rw [if_pos hsc]
  cases hr : getActionRoute ev.path with
  | error e => exact hc
  | ok r =>
    dsimp only
    by_cases hex : existsSync disk ev.path = true
    · rw [if_pos hex]
      cases hld : loadFile disk ev.path with
      | error e => exact hc
      | ok m =>
        dsimp only
        by_cases hany : st.serverHandlers.any (fun hh => decide (hh.handler = ev.path)) = true
        · rw [if_pos hany]
          by_cases hl : (alistGet m loaderKey).isSome = true
          · rw [if_pos hl]
            cases hwo : writeOutcome fs (writeLoaderPath ld r) with
            | ok =>
              dsimp only
              by_cases hmem : r ∈ st.serverLoaders
              · rw [if_pos hmem]
                exact consistent_of_fields st _ rfl rfl hc
              · rw [if_neg hmem]
                exact consistent_push st r _ _ rfl rfl hc
            | failBefore =>
              exact hc
            | failAfter =>
              exact consistent_of_fields st _ rfl rfl hc
          · rw [if_neg hl]
            exact consistent_removeLoader st r hc
        · rw [if_neg hany]
          by_cases hl : (alistGet m loaderKey).isSome = true
          · rw [if_pos hl]
            cases hwo : writeOutcome fs (writeLoaderPath ld r) with
            | ok =>
              dsimp only
              by_cases hmem : r ∈ st.serverLoaders
              · rw [if_pos hmem]
                exact consistent_of_fields st _ rfl rfl hc
              · rw [if_neg hmem]
                exact consistent_push st r _ _ rfl rfl hc
            | failBefore =>
              exact consistent_of_fields st _ rfl rfl hc
            | failAfter =>
              exact consistent_of_fields st _ rfl rfl hc
          · rw [if_neg hl]
            exact consistent_removeLoader _ r (consistent_of_fields st _ rfl rfl hc)
    · rw [if_neg hex]
      exact consistent_removeLoader st r hc

lemma consistent_applyEvents (ld : Str) (evs : List (Disk × WriteFs × WatchEvent)) :
    ∀ st, Consistent st → Consistent (applyEvents ld evs st) := by
  induction evs with
  | nil =>
    intro st hc
    exact hc
  | cons de rest ih =>
    intro st hc
    exact ih _ (consistent_handleWatchEvent de.1 de.2.1 ld st de.2.2 hc)

/-- C3 (amended): after a full scan from the initial state followed by any sequence of
incremental events (each with its own disk contents and write outcomes, failures
included), every published loader name still has a loaderMap entry: every operation that
publishes a name also sets the map entry.  The converse direction of the claimed
invariant fails, because removal filters only the name list and never deletes the map
entry (see the counterexample). -/
theorem serverLoaders_subset_loaderMap (ld : Str) (files : List ScanFile)
    (evs : List (Disk × WriteFs × WatchEvent)) (st1 : ModuleState)
    (h : fullScan ld initState files = Except.ok st1) :
    Consistent (applyEvents ld evs st1) :=
  consistent_applyEvents ld evs st1
    (consistent_fullScan ld initState files st1 consistent_init h)

/-- Witness for serverLoaders_subset_loaderMap at the example scan plus remove event. -/
theorem serverLoaders_subset_loaderMap_w :
    Consistent (applyEvents appLoaderDir
      [(profileChangedDisk, [], profileChangeEvent)] scanState) :=
  serverLoaders_subset_loaderMap appLoaderDir [loginFile, profileFile, searchFile]
    [(profileChangedDisk, [], profileChangeEvent)] scanState rfl

end FormActions
